import Mathlib

/-!
Shallow embedding of the cubestore distributed query execution core
(`src/rust/cubestore/src/queryplanner/query_executor.rs` and
`src/rust/cubestore/src/sql/parser.rs`) together with proofs about the
worker-assignment algorithm, the batch regrouper, the batch codec, the
row conversion and the parser dialect.

Machine integers are modelled as `Nat`/`Int`; Rust `HashMap`s are
modelled as insertion-ordered association lists; panics and assertion
failures surface as `Option`/`Except` failures.
-/

/-- A key value row: `min_val`/`max_val` of a partition hold rows of table
values; their contents are only carried around, never inspected, so we model
them as integer lists. -/
abbrev KeyRow := List Int

/-- `RowRange` from `serialized_plan.rs` usage: half-open range with optional
bounds; `default` is unbounded on both ends. The Rust field `end` is a Lean
keyword, hence `end_`. -/
structure RowRange where
  start : Option KeyRow
  end_ : Option KeyRow
deriving DecidableEq

def RowRange.default : RowRange := ⟨none, none⟩

/-- The fields of `metastore::Partition` used by the embedded functions. -/
structure Partition where
  multi_partition_id : Option Nat
  min_val : Option KeyRow
  max_val : Option KeyRow
deriving DecidableEq

/-- `IdRow<Partition>`: `get_id()` and `get_row()` accessors become fields. -/
structure IdRowPartition where
  id : Nat
  row : Partition
deriving DecidableEq

/-- The field of `metastore::multi_index::MultiPartition` used here. -/
structure MultiPartition where
  parent_multi_partition_id : Option Nat
deriving DecidableEq

/-- `PartitionSnapshot` from `serialized_plan.rs`: only the `partition` field
is read by `logical_partitions` (chunks are not consulted there). -/
structure PartitionSnapshot where
  partition : IdRowPartition
deriving DecidableEq

/-- `IndexSnapshot`: only the `partitions` field is read by
`logical_partitions`. -/
structure IndexSnapshot where
  partitions : List PartitionSnapshot
deriving DecidableEq

/-- Association list lookup, modelling `HashMap::get` / indexing. -/
def lookupA {β : Type} (k : Nat) : List (Nat × β) → Option β
  | [] => none
  | e :: rest => if k = e.1 then some e.2 else lookupA k rest

/-- `ClusterSendExec::issue_filters`. Mirrors the source line by line:
empty input gives an empty result; otherwise `multi_id` is read from the
first partition; in the ordinary regime every partition gets the default
range; in the multi regime partitions of the same multi-partition get the
default range and all others get the range of the first partition. -/
def issue_filters (ps : List IdRowPartition) : List (Nat × RowRange) :=
  match ps.head? with
  | none => []
  | some p0 =>
    let multi_id := p0.row.multi_partition_id
    if multi_id = none then
      ps.map (fun p => (p.id, RowRange.default))
    else
      let filter : RowRange := ⟨p0.row.min_val, p0.row.max_val⟩
      ps.map (fun p =>
        (p.id, if multi_id = p.row.multi_partition_id then RowRange.default
               else filter))

/-- The `has_children` set of `ClusterSendExec::distribute_multi_partitions`:
every multi-partition id that appears as a parent of some tree node. -/
def hasChildrenSet (tree : List (Nat × MultiPartition)) : List Nat :=
  tree.filterMap (fun e => e.2.parent_multi_partition_id)

/-- The `while let Some(p) = curr` ancestor walk of
`distribute_multi_partitions`. `tree[&p]` panics when `p` is missing, which
becomes `none`; `fuel` bounds the walk, modelling nontermination on a cyclic
tree as `none`. -/
def walkUp (tree : List (Nat × MultiPartition))
    (mp : List (Nat × List IdRowPartition)) :
    Nat → Option Nat → List IdRowPartition → Option (List IdRowPartition)
  | _, none, acc => some acc
  | 0, some _, _ => none
  | fuel + 1, some p, acc =>
    let acc2 := match lookupA p mp with
      | some ps => acc ++ ps
      | none => acc
    match lookupA p tree with
    | none => none
    | some m => walkUp tree mp fuel m.parent_multi_partition_id acc2

/-- `ClusterSendExec::distribute_multi_partitions`. The first loop moves the
partition lists of every id contained in `has_children` into a `leaves` map
(`take(parts)` leaves an empty list behind); the second loop extends those
moved lists with the partitions of their ancestors (with `tree[m]` and
`tree[&p]` panicking on missing nodes, modelled as `none`); the final loop
emits, from the original map, the entries whose id is not in `has_children`.
The `leaves` map is not consulted by the final loop. -/
def distribute_multi_partitions (mp : List (Nat × List IdRowPartition))
    (tree : List (Nat × MultiPartition)) :
    Option (List (List IdRowPartition)) :=
  let has_children := hasChildrenSet tree
  let leaves0 := mp.filter (fun e => e.1 ∈ has_children)
  let mp2 := mp.map (fun e =>
    if e.1 ∈ has_children then (e.1, ([] : List IdRowPartition)) else e)
  let walked := leaves0.mapM (fun e =>
    match lookupA e.1 tree with
    | none => none
    | some m =>
      walkUp tree mp2 (tree.length + 1) m.parent_multi_partition_id e.2)
  match walked with
  | none => none
  | some _ => some ((mp2.filter (fun e => e.1 ∉ has_children)).map (fun e => e.2))

/-- `entry(id).or_default().push(p)` on an insertion-ordered association
list: an existing entry is extended in place, a new key is appended. -/
def pushEntry (m : List (Nat × List IdRowPartition)) (k : Nat)
    (p : IdRowPartition) : List (Nat × List IdRowPartition) :=
  match m with
  | [] => [(k, [p])]
  | e :: rest =>
    if k = e.1 then (e.1, e.2 ++ [p]) :: rest else e :: pushEntry rest k p

/-- The body of the partition loop of `logical_partitions`: push the
partition either to the ordinary list or to the multi-partition map. -/
def splitStep (acc : List IdRowPartition × List (Nat × List IdRowPartition))
    (ps : PartitionSnapshot) :
    List IdRowPartition × List (Nat × List IdRowPartition) :=
  match ps.partition.row.multi_partition_id with
  | some id => (acc.1, pushEntry acc.2 id ps.partition)
  | none => (acc.1 ++ [ps.partition], acc.2)

/-- The inner loops of `logical_partitions` for one union: every partition of
every index of the union is pushed either to the ordinary list or to the
multi-partition map, in iteration order. -/
def unionSplit (union : List IndexSnapshot)
    (multi0 : List (Nat × List IdRowPartition)) :
    List IdRowPartition × List (Nat × List IdRowPartition) :=
  ((union.map IndexSnapshot.partitions).flatten).foldl splitStep ([], multi0)

/-- `itertools::multi_cartesian_product` on a non-empty outer list: odometer
order, first factor slowest. -/
def cartesianSections {α : Type} : List (List α) → List (List α)
  | [] => [[]]
  | l :: ls => l.flatMap (fun x => (cartesianSections ls).map (fun r => x :: r))

/-- `itertools::multi_cartesian_product`: an empty outer iterator yields an
empty product iterator (no combinations at all). -/
def multiCartesianProduct {α : Type} (ls : List (List α)) : List (List α) :=
  match ls with
  | [] => []
  | _ :: _ => cartesianSections ls

/-- `ClusterSendExec::logical_partitions`. Builds `to_multiply` (one entry
per union with at least one ordinary partition) and the `multi_partitions`
map, fires the assertion that the two regimes do not mix (`none` models the
assertion failure), then either distributes the multi-partitions over the
tree or takes the cartesian product of the ordinary partition lists. -/
def logical_partitions (snapshots : List (List IndexSnapshot))
    (tree : List (Nat × MultiPartition)) :
    Option (List (List IdRowPartition)) :=
  let step := snapshots.foldl
    (fun (acc : List (List IdRowPartition) × List (Nat × List IdRowPartition))
        union =>
      let s := unionSplit union acc.2
      (if s.1 ≠ [] then acc.1 ++ [s.1] else acc.1, s.2))
    ([], [])
  let to_multiply := step.1
  let multi_partitions := step.2
  if to_multiply ≠ [] ∧ multi_partitions ≠ [] then none
  else if multi_partitions ≠ [] then
    distribute_multi_partitions multi_partitions tree
  else some (multiCartesianProduct to_multiply)

-- Concrete data of spec scenario 3 (the multi regime example).

/-- The two-level multi-partition tree of spec scenario 3. -/
def treeEx : List (Nat × MultiPartition) :=
  [(10, ⟨none⟩), (20, ⟨some 10⟩), (30, ⟨some 10⟩)]

/-- Partition `P_a` in multi-partition 20 with range `[0, 5)`. -/
def partA : IdRowPartition := ⟨1, ⟨some 20, some [0], some [5]⟩⟩

/-- Partition `P_b` in multi-partition 30 with range `[5, 10)`. -/
def partB : IdRowPartition := ⟨2, ⟨some 30, some [5], some [10]⟩⟩

/-- Partition `P_c` in multi-partition 10 with range `[0, 10)`. -/
def partC : IdRowPartition := ⟨3, ⟨some 10, some [0], some [10]⟩⟩

/-- The grouped multi-partition map of spec scenario 3. -/
def mpEx : List (Nat × List IdRowPartition) :=
  [(20, [partA]), (30, [partB]), (10, [partC])]

/-- C1: with the tree 10 parent of 20 and 30 and partitions `P_a` in 20,
`P_b` in 30, `P_c` in 10, `distribute_multi_partitions` emits `[P_a]` for
leaf 20 and `[P_b]` for leaf 30, dropping the root partition `P_c` entirely,
instead of emitting `[P_a, P_c]` and `[P_b, P_c]` as claimed: the loop that
appends ancestor partitions fills a map keyed by the internal nodes and that
map is then discarded, so no leaf list ever receives ancestor partitions. -/
theorem c1_distribute_drops_ancestor_partitions :
    distribute_multi_partitions mpEx treeEx = some [[partA], [partB]] ∧
    distribute_multi_partitions mpEx treeEx ≠ some [[partA, partC], [partB, partC]] := by
  constructor
  · rfl
  · decide

/-- C3: for every non-empty partition list, `issue_filters` emits one pair
per partition in order; in the ordinary regime every pair carries the
default range, and in the multi regime a partition sharing the multi id of
the first partition gets the default range while any other partition gets
the range of the first partition. -/
theorem c3_issue_filters_spec (ps : List IdRowPartition) (p0 : IdRowPartition)
    (h : ps.head? = some p0) :
    issue_filters ps = ps.map (fun p =>
      (p.id,
        if p0.row.multi_partition_id = none then RowRange.default
        else if p0.row.multi_partition_id = p.row.multi_partition_id then
          RowRange.default
        else ⟨p0.row.min_val, p0.row.max_val⟩)) := by
  unfold issue_filters
  rw [h]
  by_cases hm : p0.row.multi_partition_id = none
  · simp [hm]
  · simp [hm]

/-- C3 witness: evaluating the statement on the concrete multi-regime list
`[P_a, P_c]` of spec scenario 3. -/
theorem c3_issue_filters_witness :
    issue_filters [partA, partC] = [(1, RowRange.default), (3, ⟨some [0], some [5]⟩)] := by
  have h := c3_issue_filters_spec [partA, partC] partA rfl
  rw [h]
  decide

/-- The ordinary partitions of one union, in iteration order: every partition
of every index, none of them carrying a multi-partition id. -/
def ordinaryOf (union : List IndexSnapshot) : List IdRowPartition :=
  ((union.map IndexSnapshot.partitions).flatten).map (fun ps => ps.partition)

theorem splitStep_fold_ordinary (l : List PartitionSnapshot)
    (acc1 : List IdRowPartition) (m : List (Nat × List IdRowPartition))
    (h : ∀ ps ∈ l, ps.partition.row.multi_partition_id = none) :
    l.foldl splitStep (acc1, m) =
      (acc1 ++ l.map (fun ps => ps.partition), m) := by
  induction l generalizing acc1 with
  | nil => simp
  | cons a l ih =>
    have ha := h a (List.mem_cons_self a l)
    have hrest : ∀ ps ∈ l, ps.partition.row.multi_partition_id = none :=
      fun ps hps => h ps (List.mem_cons_of_mem a hps)
    simp only [List.foldl_cons, splitStep, ha]
    rw [ih (acc1 ++ [a.partition]) hrest]
    simp

theorem unionSplit_ordinary (union : List IndexSnapshot)
    (m : List (Nat × List IdRowPartition))
    (h : ∀ i ∈ union, ∀ p ∈ i.partitions,
      p.partition.row.multi_partition_id = none) :
    unionSplit union m = (ordinaryOf union, m) := by
  unfold unionSplit ordinaryOf
  apply splitStep_fold_ordinary
  intro ps hps
  rcases List.mem_flatten.1 hps with ⟨l, hl, hpsl⟩
  rcases List.mem_map.1 hl with ⟨i, hi, rfl⟩
  exact h i hi ps hpsl

theorem logical_fold_ordinary (snapshots : List (List IndexSnapshot))
    (acc1 : List (List IdRowPartition))
    (h : ∀ u ∈ snapshots, ∀ i ∈ u, ∀ p ∈ i.partitions,
      p.partition.row.multi_partition_id = none)
    (harm : ∀ u ∈ snapshots, ordinaryOf u ≠ []) :
    snapshots.foldl
      (fun (acc : List (List IdRowPartition) × List (Nat × List IdRowPartition))
          union =>
        let s := unionSplit union acc.2
        (if s.1 ≠ [] then acc.1 ++ [s.1] else acc.1, s.2))
      (acc1, []) =
      (acc1 ++ snapshots.map ordinaryOf, []) := by
  induction snapshots generalizing acc1 with
  | nil => simp
  | cons u rest ih =>
    have hu := h u (List.mem_cons_self u rest)
    have hrest : ∀ v ∈ rest, ∀ i ∈ v, ∀ p ∈ i.partitions,
        p.partition.row.multi_partition_id = none :=
      fun v hv => h v (List.mem_cons_of_mem u hv)
    have harm_rest : ∀ v ∈ rest, ordinaryOf v ≠ [] :=
      fun v hv => harm v (List.mem_cons_of_mem u hv)
    simp only [List.foldl_cons]
    rw [unionSplit_ordinary u [] hu]
    simp only [harm u (List.mem_cons_self u rest), if_true, ne_eq,
      not_false_iff]
    rw [ih (acc1 ++ [ordinaryOf u]) hrest harm_rest]
    simp

theorem cartesianSections_length {α : Type} (ls : List (List α)) :
    (cartesianSections ls).length = (ls.map List.length).prod := by
  induction ls with
  | nil => simp [cartesianSections]
  | cons l ls ih =>
    simp only [cartesianSections, List.length_flatMap, List.map_cons,
      List.prod_cons]
    have hmap : List.map
        (List.length ∘ fun x => (cartesianSections ls).map (fun r => x :: r)) l
        = List.replicate l.length (ls.map List.length).prod := by
      rw [show (List.length ∘ fun x =>
          (cartesianSections ls).map (fun r => x :: r)) =
          fun _ => (ls.map List.length).prod from ?_]
      · exact List.map_const' l _
      · funext x
        simp [ih]
    rw [hmap, List.sum_const_nat, Nat.mul_comm]

theorem mem_cartesianSections {α : Type} (c : List α) (ls : List (List α)) :
    c ∈ cartesianSections ls ↔ List.Forall₂ (fun x arm => x ∈ arm) c ls := by
  induction ls generalizing c with
  | nil =>
    simp [cartesianSections, List.forall₂_nil_right_iff]
  | cons l ls ih =>
    simp only [cartesianSections, List.mem_flatMap, List.mem_map,
      List.forall₂_cons_right_iff]
    constructor
    · rintro ⟨x, hx, r, hr, rfl⟩
      exact ⟨x, r, hx, (ih r).1 hr, rfl⟩
    · rintro ⟨x, r, hx, hr, rfl⟩
      exact ⟨x, hx, r, (ih r).2 hr, rfl⟩

theorem nodup_cartesianSections {α : Type} (ls : List (List α))
    (h : ∀ l ∈ ls, l.Nodup) : (cartesianSections ls).Nodup := by
  induction ls with
  | nil => simp [cartesianSections]
  | cons l ls ih =>
    have hl := h l (List.mem_cons_self l ls)
    have hrest := ih (fun a ha => h a (List.mem_cons_of_mem l ha))
    simp only [cartesianSections]
    refine List.nodup_flatMap.2 ⟨?_, ?_⟩
    · intro x _
      exact hrest.map (fun a b hab => by injection hab)
    · refine hl.imp (fun hxy => ?_)
      intro c hc1 hc2
      rcases List.mem_map.1 hc1 with ⟨r1, _, rfl⟩
      rcases List.mem_map.1 hc2 with ⟨r2, _, heq⟩
      injection heq with h1 _
      exact hxy h1.symm

theorem multiCartesianProduct_of_ne_nil {α : Type} (ls : List (List α))
    (h : ls ≠ []) : multiCartesianProduct ls = cartesianSections ls := by
  cases ls with
  | nil => exact absurd rfl h
  | cons a l => rfl

/-- C2: in the ordinary regime, with at least one union arm, each arm
non-empty and duplicate-free, `logical_partitions` returns exactly the
cartesian product across the union arms: its length is the product of the
arm sizes, it has no duplicates, and its members are exactly the
combinations choosing one partition per arm. -/
theorem c2_logical_partitions_cartesian
    (snapshots : List (List IndexSnapshot)) (tree : List (Nat × MultiPartition))
    (hne : snapshots ≠ [])
    (hord : ∀ u ∈ snapshots, ∀ i ∈ u, ∀ p ∈ i.partitions,
      p.partition.row.multi_partition_id = none)
    (harm : ∀ u ∈ snapshots, ordinaryOf u ≠ [])
    (hnodup : ∀ u ∈ snapshots, (ordinaryOf u).Nodup) :
    logical_partitions snapshots tree =
      some (cartesianSections (snapshots.map ordinaryOf)) ∧
    (cartesianSections (snapshots.map ordinaryOf)).length =
      ((snapshots.map ordinaryOf).map List.length).prod ∧
    (cartesianSections (snapshots.map ordinaryOf)).Nodup ∧
    ∀ c, c ∈ cartesianSections (snapshots.map ordinaryOf) ↔
      List.Forall₂ (fun p arm => p ∈ arm) c (snapshots.map ordinaryOf) := by
  have hmap : snapshots.map ordinaryOf ≠ [] := by
    intro hcontr
    exact hne (List.map_eq_nil_iff.1 hcontr)
  refine ⟨?_, cartesianSections_length _, nodup_cartesianSections _ ?_,
    fun c => mem_cartesianSections c _⟩
  · unfold logical_partitions
    rw [logical_fold_ordinary snapshots [] hord harm]
    simp only [List.nil_append, ne_eq, and_false, not_true_eq_false,
      if_false, not_false_iff]
    rw [multiCartesianProduct_of_ne_nil _ hmap]
  · intro l hl
    rcases List.mem_map.1 hl with ⟨u, hu, rfl⟩
    exact hnodup u hu

/-- Ordinary partition `a` of spec scenario 2. -/
def ordA : IdRowPartition := ⟨4, ⟨none, none, none⟩⟩

/-- Ordinary partition `b` of spec scenario 2. -/
def ordB : IdRowPartition := ⟨5, ⟨none, none, none⟩⟩

/-- Ordinary partition `c` of spec scenario 2. -/
def ordC : IdRowPartition := ⟨6, ⟨none, none, none⟩⟩

/-- The two unions of spec scenario 2: `[[a,b],[c]]`. -/
def snapsEx : List (List IndexSnapshot) :=
  [[⟨[⟨ordA⟩, ⟨ordB⟩]⟩], [⟨[⟨ordC⟩]⟩]]

/-- C2 witness: spec scenario 2, `[[a,b],[c]]` gives `[[a,c],[b,c]]`. -/
theorem c2_logical_partitions_witness :
    logical_partitions snapsEx [] = some [[ordA, ordC], [ordB, ordC]] := by
  have h := (c2_logical_partitions_cartesian snapsEx [] (by decide)
    (by decide) (by decide) (by decide)).1
  rw [h]
  decide

/-- The `ConfigObj` capability as consumed by `assign_nodes`: two stable
worker-selection functions from the cluster module. -/
structure ConfigObjM where
  pick_worker_by_ids : List Nat → String
  pick_worker_by_partitions : List IdRowPartition → String

/-- `m.entry(node).or_default().extend(filters)` on an insertion-ordered
association list keyed by worker name. -/
def pushFilters (m : List (String × List (Nat × RowRange))) (node : String)
    (fs : List (Nat × RowRange)) : List (String × List (Nat × RowRange)) :=
  match m with
  | [] => [(node, fs)]
  | e :: rest =>
    if node = e.1 then (e.1, e.2 ++ fs) :: rest
    else e :: pushFilters rest node fs

/-- Worker selection for one logical partition in `assign_nodes`: `ps[0]`
panics on an empty list (modelled as `none`); a multi partition routes by
its multi id, an ordinary one by the partition list. -/
def nodeFor (c : ConfigObjM) (ps : List IdRowPartition) : Option String :=
  match ps.head? with
  | none => none
  | some p0 =>
    match p0.row.multi_partition_id with
    | some multi_id => some (c.pick_worker_by_ids [multi_id])
    | none => some (c.pick_worker_by_partitions ps)

/-- The grouping loop of `ClusterSendExec::assign_nodes`: partitions routed
to the same worker have their issued filters concatenated, in input order. -/
def groupNodes (c : ConfigObjM) (logical : List (List IdRowPartition)) :
    Option (List (String × List (Nat × RowRange))) :=
  logical.foldlM
    (fun m ps => (nodeFor c ps).map (fun node =>
      pushFilters m node (issue_filters ps)))
    []

/-- `r.sort_unstable_by(|l, r| l.0.cmp(&r.0))`: sort the worker list by
worker name. -/
def sortPairs (l : List (String × List (Nat × RowRange))) :
    List (String × List (Nat × RowRange)) :=
  List.insertionSort (fun a b => a.1 ≤ b.1) l

/-- `ClusterSendExec::assign_nodes`: group by worker, then sort by name. -/
def assign_nodes (c : ConfigObjM) (logical : List (List IdRowPartition)) :
    Option (List (String × List (Nat × RowRange))) :=
  (groupNodes c logical).map sortPairs

theorem pushFilters_keys (m : List (String × List (Nat × RowRange)))
    (node : String) (fs : List (Nat × RowRange)) :
    (pushFilters m node fs).map Prod.fst =
      if node ∈ m.map Prod.fst then m.map Prod.fst
      else m.map Prod.fst ++ [node] := by
  induction m with
  | nil => simp [pushFilters]
  | cons e rest ih =>
    by_cases h : node = e.1
    · simp [pushFilters, h]
    · simp only [pushFilters, if_neg h, List.map_cons, ih, List.mem_cons]
      by_cases h2 : node ∈ rest.map Prod.fst
      · simp [h2, h]
      · simp [h2, h]

theorem pushFilters_keys_nodup (m : List (String × List (Nat × RowRange)))
    (node : String) (fs : List (Nat × RowRange))
    (h : (m.map Prod.fst).Nodup) :
    ((pushFilters m node fs).map Prod.fst).Nodup := by
  rw [pushFilters_keys]
  by_cases hmem : node ∈ m.map Prod.fst
  · simpa [hmem]
  · simp only [hmem, if_false]
    refine List.Nodup.append h (List.nodup_singleton node) ?_
    intro a ha hb
    rw [List.mem_singleton] at hb
    subst hb
    exact hmem ha

theorem groupNodes_keys_nodup (c : ConfigObjM)
    (logical : List (List IdRowPartition))
    (g : List (String × List (Nat × RowRange)))
    (hg : groupNodes c logical = some g) : (g.map Prod.fst).Nodup := by
  suffices h : ∀ (l : List (List IdRowPartition))
      (m : List (String × List (Nat × RowRange))),
      (m.map Prod.fst).Nodup →
      l.foldlM (fun m ps => (nodeFor c ps).map (fun node =>
        pushFilters m node (issue_filters ps))) m = some g →
      (g.map Prod.fst).Nodup by
    exact h logical [] (by simp) hg
  intro l
  induction l with
  | nil =>
    intro m hm hfold
    simp only [List.foldlM_nil] at hfold
    cases hfold
    exact hm
  | cons ps rest ih =>
    intro m hm hfold
    cases hn : nodeFor c ps with
    | none =>
      rw [show (ps :: rest).foldlM (fun m ps => (nodeFor c ps).map (fun node =>
        pushFilters m node (issue_filters ps))) m =
        ((nodeFor c ps).map (fun node =>
          pushFilters m node (issue_filters ps))).bind (fun m2 =>
          rest.foldlM (fun m ps => (nodeFor c ps).map (fun node =>
            pushFilters m node (issue_filters ps))) m2) from rfl, hn] at hfold
      exact Option.noConfusion hfold
    | some node =>
      rw [show (ps :: rest).foldlM (fun m ps => (nodeFor c ps).map (fun node =>
        pushFilters m node (issue_filters ps))) m =
        ((nodeFor c ps).map (fun node =>
          pushFilters m node (issue_filters ps))).bind (fun m2 =>
          rest.foldlM (fun m ps => (nodeFor c ps).map (fun node =>
            pushFilters m node (issue_filters ps))) m2) from rfl, hn] at hfold
      exact ih _ (pushFilters_keys_nodup m node _ hm) hfold

theorem eq_of_perm_sorted_keys_nodup {β : Type}
    (l1 l2 : List (String × β)) (hperm : l1.Perm l2)
    (hnd : (l1.map Prod.fst).Nodup)
    (hs1 : l1.Sorted (fun a b => a.1 ≤ b.1))
    (hs2 : l2.Sorted (fun a b => a.1 ≤ b.1)) : l1 = l2 := by
  have hne1 : l1.Pairwise (fun a b : String × β => a.1 ≠ b.1) :=
    List.pairwise_map.1 hnd
  have hnd2 : (l2.map Prod.fst).Nodup := ((hperm.map Prod.fst).nodup_iff).1 hnd
  have hne2 : l2.Pairwise (fun a b : String × β => a.1 ≠ b.1) :=
    List.pairwise_map.1 hnd2
  have hlt1 : l1.Pairwise (fun a b : String × β => a.1 < b.1) :=
    (hs1.and hne1).imp (fun hab => lt_of_le_of_ne hab.1 hab.2)
  have hlt2 : l2.Pairwise (fun a b : String × β => a.1 < b.1) :=
    (hs2.and hne2).imp (fun hab => lt_of_le_of_ne hab.1 hab.2)
  haveI : IsAntisymm (String × β) (fun a b => a.1 < b.1) :=
    ⟨fun a b h1 h2 => absurd (lt_trans h1 h2) (lt_irrefl _)⟩
  exact List.eq_of_perm_of_sorted hperm hlt1 hlt2

theorem sortPairs_sorted (l : List (String × List (Nat × RowRange))) :
    (sortPairs l).Sorted (fun a b => a.1 ≤ b.1) := by
  haveI ht : IsTotal (String × List (Nat × RowRange))
      (fun a b => a.1 ≤ b.1) := ⟨fun a b => le_total a.1 b.1⟩
  haveI htr : IsTrans (String × List (Nat × RowRange))
      (fun a b => a.1 ≤ b.1) := ⟨fun _ _ _ h1 h2 => le_trans h1 h2⟩
  exact List.sorted_insertionSort _ l

/-- C9: `assign_nodes` is deterministic and emits a worker list sorted by
worker name: any iteration order of the grouping map (any permutation of the
grouped entries) produces, after the final sort, the same output, and that
output is sorted ascending by worker name. -/
theorem c9_assign_nodes_deterministic_sorted
    (c : ConfigObjM) (logical : List (List IdRowPartition))
    (g r : List (String × List (Nat × RowRange)))
    (hg : groupNodes c logical = some g)
    (hr : assign_nodes c logical = some r) :
    (∀ g2, g2.Perm g → sortPairs g2 = r) ∧
    r.Sorted (fun a b => a.1 ≤ b.1) := by
  have hr2 : r = sortPairs g := by
    unfold assign_nodes at hr
    rw [hg] at hr
    exact (Option.some.inj hr).symm
  subst hr2
  refine ⟨?_, sortPairs_sorted g⟩
  intro g2 hperm
  have hperm2 : (sortPairs g2).Perm (sortPairs g) :=
    ((List.perm_insertionSort _ g2).trans hperm).trans
      (List.perm_insertionSort _ g).symm
  have hnd : ((sortPairs g2).map Prod.fst).Nodup := by
    have hgnd := groupNodes_keys_nodup c logical g hg
    have hg2nd : (g2.map Prod.fst).Nodup :=
      ((hperm.map Prod.fst).nodup_iff).2 hgnd
    exact (((List.perm_insertionSort _ g2).map Prod.fst).nodup_iff).2 hg2nd
  exact eq_of_perm_sorted_keys_nodup _ _ hperm2 hnd
    (sortPairs_sorted g2) (sortPairs_sorted g)

/-- A concrete config for the C9 witness: both selectors route to `w1`. -/
def cfgEx : ConfigObjM :=
  ⟨fun _ => "w1", fun _ => "w1"⟩

/-- C9 witness: evaluating the statement on one ordinary logical partition
routed to worker `w1`. -/
theorem c9_assign_nodes_witness :
    sortPairs [("w1", [(4, RowRange.default)])] =
      [("w1", [(4, RowRange.default)])] ∧
    List.Sorted (fun (a b : String × List (Nat × RowRange)) => a.1 ≤ b.1)
      [("w1", [(4, RowRange.default)])] := by
  have h := c9_assign_nodes_deterministic_sorted cfgEx [[ordA]]
    [("w1", [(4, RowRange.default)])] [("w1", [(4, RowRange.default)])]
    rfl rfl
  exact ⟨h.1 _ (List.Perm.refl _), h.2⟩

/-- A cell of a columnar array; the regrouper never inspects cell contents,
so cells are modelled as integers. -/
abbrev Val := Int

/-- `RecordBatch`: a schema (modelled by its field count) and one list of
cells per column. -/
structure Batch where
  schema : Nat
  columns : List (List Val)
deriving DecidableEq

/-- `RecordBatch::num_rows`: the length of the first column, `0` for a batch
without columns. -/
def num_rows (b : Batch) : Nat := ((b.columns.head?).map List.length).getD 0

/-- `slice_copy(a, start, len)`: `MutableArrayData::extend(0, start,
start + len)` copies the cell range `[start, start + len)`. -/
def slice_copy (c : List Val) (start len : Nat) : List Val :=
  (c.drop start).take len

/-- `RecordBatch::try_new`: fails without columns, when the column count
does not match the schema, or when the columns have unequal lengths. -/
def try_new (schema : Nat) (cols : List (List Val)) : Except String Batch :=
  if cols.isEmpty then Except.error "at least one column"
  else if cols.length ≠ schema then
    Except.error "number of columns must match number of fields"
  else if cols.any (fun c =>
      c.length ≠ ((cols.head?).map List.length).getD 0) then
    Except.error "all columns must have the same length"
  else Except.ok ⟨schema, cols⟩

/-- The `while row != b.num_rows()` loop of `regroup_batches` for one batch,
with explicit fuel: exhausted fuel models the nonterminating `max_rows = 0`
loop. The local `slice_len = min(b.num_rows() - row, max_rows)` of the
source is inlined at its two uses. -/
def regroupGo (b : Batch) (max_rows : Nat) : Nat → Nat → Except String (List Batch)
  | fuel, row =>
    if row = num_rows b then Except.ok []
    else
      match fuel with
      | 0 => Except.error "regroup loop does not terminate"
      | fuel + 1 =>
        match try_new b.schema (b.columns.map (fun c =>
            slice_copy c row (min (num_rows b - row) max_rows))) with
        | Except.error e => Except.error e
        | Except.ok piece =>
          match regroupGo b max_rows fuel
              (row + min (num_rows b - row) max_rows) with
          | Except.error e => Except.error e
          | Except.ok rest => Except.ok (piece :: rest)

/-- `regroup_batches`: slice every batch into pieces of at most `max_rows`
rows, in order. -/
def regroup_batches (batches : List Batch) (max_rows : Nat) :
    Except String (List Batch) :=
  batches.foldlM
    (fun r b => (regroupGo b max_rows (num_rows b) 0).map
      (fun pieces => r ++ pieces))
    []

/-- Row `i` of a batch: the `i`-th cell of every column. -/
def rowAt (b : Batch) (i : Nat) : List Val :=
  b.columns.map (fun c => c.getD i 0)

/-- The rows of a batch in order. -/
def rowsOfBatch (b : Batch) : List (List Val) :=
  (List.range (num_rows b)).map (rowAt b)

/-- Well-formedness of a batch: the column count matches the schema and all
columns have the row count as length. -/
def wfBatch (b : Batch) : Prop :=
  b.columns.length = b.schema ∧ ∀ c ∈ b.columns, c.length = num_rows b

instance (b : Batch) : Decidable (wfBatch b) := by
  unfold wfBatch
  infer_instance

theorem getD_slice_copy (c : List Val) (row len j : Nat) (hj : j < len) :
    (slice_copy c row len).getD j 0 = c.getD (row + j) 0 := by
  unfold slice_copy
  rw [List.getD_eq_getElem?_getD, List.getD_eq_getElem?_getD,
    List.getElem?_take, if_pos hj, List.getElem?_drop]

theorem length_slice_copy (c : List Val) (row len : Nat)
    (h : row + len ≤ c.length) : (slice_copy c row len).length = len := by
  unfold slice_copy
  rw [List.length_take, List.length_drop]
  omega

theorem columns_ne_nil_of_num_rows_pos (b : Batch) (h : 0 < num_rows b) :
    b.columns ≠ [] := by
  intro hcols
  unfold num_rows at h
  rw [hcols] at h
  simp at h

theorem try_new_slices_ok (b : Batch) (hwf : wfBatch b) (row len : Nat)
    (hlen : row + len ≤ num_rows b) (hne : b.columns ≠ []) :
    try_new b.schema (b.columns.map (fun c => slice_copy c row len)) =
      Except.ok ⟨b.schema, b.columns.map (fun c => slice_copy c row len)⟩ := by
  have hlens : ∀ c ∈ b.columns, (slice_copy c row len).length = len := by
    intro c hc
    exact length_slice_copy c row len (by rw [hwf.2 c hc]; exact hlen)
  obtain ⟨c0, rest, hcols⟩ := List.exists_cons_of_ne_nil hne
  unfold try_new
  rw [if_neg, if_neg, if_neg]
  · intro hany
    rw [List.any_eq_true] at hany
    obtain ⟨c, hc, hprop⟩ := hany
    rw [List.mem_map] at hc
    obtain ⟨c1, hc1, rfl⟩ := hc
    rw [hlens c1 hc1] at hprop
    rw [hcols] at hprop
    simp only [List.map_cons, List.head?_cons, decide_eq_true_eq] at hprop
    have hx : (Option.map List.length (some (slice_copy c0 row len))).getD 0
        = len := by
      rw [show (Option.map List.length (some (slice_copy c0 row len))).getD 0 =
        (slice_copy c0 row len).length from rfl]
      exact hlens c0 (by rw [hcols]; exact List.mem_cons_self c0 rest)
    exact hprop hx.symm
  · rw [List.length_map, hwf.1]
    simp
  · rw [hcols]
    simp

theorem num_rows_piece (b : Batch) (row len : Nat) (hwf : wfBatch b)
    (hne : b.columns ≠ []) (hlen : row + len ≤ num_rows b) :
    num_rows ⟨b.schema, b.columns.map (fun c => slice_copy c row len)⟩ = len := by
  obtain ⟨c0, rest, hcols⟩ := List.exists_cons_of_ne_nil hne
  unfold num_rows
  rw [hcols]
  simp only [List.map_cons, List.head?_cons, Option.map_some, Option.getD_some]
  apply length_slice_copy
  rw [hwf.2 c0 (by rw [hcols]; exact List.mem_cons_self c0 rest)]
  exact hlen

theorem rows_piece (b : Batch) (row len : Nat) (hwf : wfBatch b)
    (hne : b.columns ≠ []) (hlen : row + len ≤ num_rows b) :
    rowsOfBatch ⟨b.schema, b.columns.map (fun c => slice_copy c row len)⟩ =
      (List.range len).map (fun j => rowAt b (row + j)) := by
  unfold rowsOfBatch
  rw [num_rows_piece b row len hwf hne hlen]
  apply List.map_congr_left
  intro j hj
  rw [List.mem_range] at hj
  unfold rowAt
  simp only [List.map_map]
  apply List.map_congr_left
  intro c _
  simp only [Function.comp]
  exact getD_slice_copy c row len j hj

theorem regroupGo_spec (b : Batch) (m : Nat) (hm : 1 ≤ m) (hwf : wfBatch b) :
    ∀ fuel row, row ≤ num_rows b → num_rows b - row ≤ fuel →
    ∃ out, regroupGo b m fuel row = Except.ok out ∧
      (out.map rowsOfBatch).flatten =
        (List.range (num_rows b - row)).map (fun j => rowAt b (row + j)) ∧
      ∀ p ∈ out, num_rows p ≤ m ∧ 1 ≤ num_rows p ∧ p.schema = b.schema := by
  intro fuel
  induction fuel with
  | zero =>
    intro row h1 h2
    have hrow : row = num_rows b := by omega
    refine ⟨[], ?_, ?_, ?_⟩
    · unfold regroupGo
      rw [if_pos hrow]
    · rw [hrow]
      simp
    · intro p hp
      simp at hp
  | succ fuel ih =>
    intro row h1 h2
    by_cases hrow : row = num_rows b
    · refine ⟨[], ?_, ?_, ?_⟩
      · unfold regroupGo
        rw [if_pos hrow]
      · rw [hrow]
        simp
      · intro p hp
        simp at hp
    · have hlt : row < num_rows b := by omega
      have hne : b.columns ≠ [] := columns_ne_nil_of_num_rows_pos b (by omega)
      have hsl1 : 1 ≤ min (num_rows b - row) m := by omega
      have hslle : row + min (num_rows b - row) m ≤ num_rows b := by omega
      obtain ⟨rest, hrest, hrows, hprops⟩ :=
        ih (row + min (num_rows b - row) m) (by omega) (by omega)
      refine ⟨⟨b.schema, b.columns.map
          (fun c => slice_copy c row (min (num_rows b - row) m))⟩ :: rest,
          ?_, ?_, ?_⟩
      · unfold regroupGo
        rw [if_neg hrow]
        simp only [try_new_slices_ok b hwf row (min (num_rows b - row) m)
          hslle hne, hrest]
      · simp only [List.map_cons, List.flatten_cons]
        rw [rows_piece b row (min (num_rows b - row) m) hwf hne hslle, hrows]
        conv_rhs =>
          rw [show num_rows b - row =
            min (num_rows b - row) m +
              (num_rows b - (row + min (num_rows b - row) m)) by omega,
            List.range_add, List.map_append, List.map_map]
        congr 1
        apply List.map_congr_left
        intro j _
        simp only [Function.comp]
        congr 1
        omega
      · intro p hp
        rw [List.mem_cons] at hp
        cases hp with
        | inl hp =>
          subst hp
          refine ⟨?_, ?_, rfl⟩
          · rw [num_rows_piece b row (min (num_rows b - row) m) hwf hne hslle]
            omega
          · rw [num_rows_piece b row (min (num_rows b - row) m) hwf hne hslle]
            omega
        | inr hp => exact hprops p hp

theorem regroup_fold (m : Nat) (hm : 1 ≤ m) :
    ∀ (batches : List Batch) (r0 : List Batch),
    (∀ b ∈ batches, wfBatch b) →
    ∃ out, batches.foldlM
        (fun r b => (regroupGo b m (num_rows b) 0).map
          (fun pieces => r ++ pieces)) r0 = Except.ok (r0 ++ out) ∧
      (out.map rowsOfBatch).flatten = (batches.map rowsOfBatch).flatten ∧
      ∀ p ∈ out, num_rows p ≤ m ∧ 1 ≤ num_rows p ∧
        ∃ b ∈ batches, p.schema = b.schema := by
  intro batches
  induction batches with
  | nil =>
    intro r0 _
    exact ⟨[], by rw [List.append_nil]; rfl, by simp, by simp⟩
  | cons b rest ih =>
    intro r0 hwf
    obtain ⟨pieces, hgo, hrows, hprops⟩ :=
      regroupGo_spec b m hm (hwf b (List.mem_cons_self b rest))
        (num_rows b) 0 (by omega) (by omega)
    obtain ⟨out, hfold, hrows2, hprops2⟩ :=
      ih (r0 ++ pieces) (fun x hx => hwf x (List.mem_cons_of_mem b hx))
    refine ⟨pieces ++ out, ?_, ?_, ?_⟩
    · rw [show (b :: rest).foldlM
          (fun r x => (regroupGo x m (num_rows x) 0).map
            (fun pieces => r ++ pieces)) r0 =
          ((regroupGo b m (num_rows b) 0).map
            (fun pieces => r0 ++ pieces)).bind
            (fun r2 => rest.foldlM
              (fun r x => (regroupGo x m (num_rows x) 0).map
                (fun pieces => r ++ pieces)) r2) from rfl, hgo]
      rw [show ((Except.ok pieces : Except String (List Batch)).map
          (fun pieces => r0 ++ pieces)).bind
          (fun r2 => rest.foldlM
            (fun r x => (regroupGo x m (num_rows x) 0).map
              (fun pieces => r ++ pieces)) r2) =
          rest.foldlM
            (fun r x => (regroupGo x m (num_rows x) 0).map
              (fun pieces => r ++ pieces)) (r0 ++ pieces) from rfl, hfold,
        List.append_assoc]
    · simp only [List.map_append, List.flatten_append, hrows2, List.map_cons,
        List.flatten_cons]
      rw [hrows]
      congr 1
      unfold rowsOfBatch
      simp
    · intro p hp
      rw [List.mem_append] at hp
      cases hp with
      | inl hp =>
        obtain ⟨h1, h2, h3⟩ := hprops p hp
        exact ⟨h1, h2, b, List.mem_cons_self b rest, h3⟩
      | inr hp =>
        obtain ⟨h1, h2, x, hx, h3⟩ := hprops2 p hp
        exact ⟨h1, h2, x, List.mem_cons_of_mem b hx, h3⟩

/-- C4: for every well-formed batch sequence with a common schema and every
`max_rows` of at least one, `regroup_batches` succeeds, the concatenation of
the rows of the output equals the concatenation of the rows of the input,
and every output batch has at most `max_rows` rows and the common schema. -/
theorem c4_regroup_batches_law (batches : List Batch) (m s : Nat)
    (hm : 1 ≤ m) (hwf : ∀ b ∈ batches, wfBatch b)
    (hs : ∀ b ∈ batches, b.schema = s) :
    ∃ out, regroup_batches batches m = Except.ok out ∧
      (out.map rowsOfBatch).flatten = (batches.map rowsOfBatch).flatten ∧
      ∀ p ∈ out, num_rows p ≤ m ∧ p.schema = s := by
  obtain ⟨out, hfold, hrows, hprops⟩ := regroup_fold m hm batches [] hwf
  refine ⟨out, ?_, hrows, ?_⟩
  · unfold regroup_batches
    rw [hfold]
    simp
  · intro p hp
    obtain ⟨h1, _, x, hx, h3⟩ := hprops p hp
    exact ⟨h1, by rw [h3, hs x hx]⟩

/-- The seven-row batch of spec scenario 5. -/
def batch7 : Batch := ⟨1, [[1, 2, 3, 4, 5, 6, 7]]⟩

/-- The three-row batch of spec scenario 5. -/
def batch3 : Batch := ⟨1, [[8, 9, 10]]⟩

/-- C4 witness: spec scenario 5, `regroup([B(7), B(3)], 4)` splits into
sizes `[4, 3, 3]` without merging across the input batches. -/
theorem c4_regroup_batches_witness :
    1 ≤ 4 ∧
    ∃ out, regroup_batches [batch7, batch3] 4 = Except.ok out ∧
      (out.map rowsOfBatch).flatten =
        ([batch7, batch3].map rowsOfBatch).flatten ∧
      ∀ p ∈ out, num_rows p ≤ 4 ∧ p.schema = 1 :=
  ⟨by decide,
   c4_regroup_batches_law [batch7, batch3] 4 1 (by decide) (by decide)
     (by decide)⟩

/-- C10: `regroup_batches` never emits a zero-row batch: on well-formed
input with `max_rows` at least one, every output batch has at least one
row (zero-row input batches are dropped). -/
theorem c10_regroup_batches_no_zero_rows (batches : List Batch) (m : Nat)
    (out : List Batch) (hm : 1 ≤ m) (hwf : ∀ b ∈ batches, wfBatch b)
    (hout : regroup_batches batches m = Except.ok out) :
    ∀ p ∈ out, 1 ≤ num_rows p := by
  obtain ⟨out2, hfold, _, hprops⟩ := regroup_fold m hm batches [] hwf
  unfold regroup_batches at hout
  rw [hout] at hfold
  have hout2 : out = out2 := by
    have h2 := Except.ok.inj hfold
    rw [List.nil_append] at h2
    exact h2
  subst hout2
  intro p hp
  exact (hprops p hp).2.1

/-- A zero-row batch with one (empty) column. -/
def batchEmpty : Batch := ⟨1, [[]]⟩

/-- C10 witness: regrouping a zero-row batch followed by a three-row batch
with `max_rows = 2` yields the two pieces of the three-row batch, each with
at least one row (the zero-row batch is dropped). -/
theorem c10_regroup_batches_witness :
    1 ≤ num_rows (⟨1, [[8, 9]]⟩ : Batch) ∧
    1 ≤ num_rows (⟨1, [[10]]⟩ : Batch) :=
  ⟨c10_regroup_batches_no_zero_rows [batchEmpty, batch3] 2
      [⟨1, [[8, 9]]⟩, ⟨1, [[10]]⟩] (by decide) (by decide) rfl
      ⟨1, [[8, 9]]⟩ (by decide),
   c10_regroup_batches_no_zero_rows [batchEmpty, batch3] 2
      [⟨1, [[8, 9]]⟩, ⟨1, [[10]]⟩] (by decide) (by decide) rfl
      ⟨1, [[10]]⟩ (by decide)⟩

/-- Modelled from the spec: the arrow IPC framed stream produced by
`MemStreamWriter` and consumed by `StreamReader` lives outside `src/`; per
the spec each blob is a self-contained framed stream carrying the written
schema and batches in order, so the file is modelled as that pair. -/
structure StreamFile where
  schema : Nat
  batches : List Batch
deriving DecidableEq

/-- Modelled from the spec: `MemStreamWriter` accumulates written batches
after its schema header. -/
structure MemStreamWriter where
  schema : Nat
  written : List Batch
deriving DecidableEq

/-- `MemStreamWriter::try_new`: an empty stream for the schema. -/
def MemStreamWriter.try_new (schema : Nat) : MemStreamWriter := ⟨schema, []⟩

/-- `writer.write(&batch)`: append the batch to the stream. -/
def MemStreamWriter.writeBatch (w : MemStreamWriter) (b : Batch) :
    MemStreamWriter :=
  ⟨w.schema, w.written ++ [b]⟩

/-- `writer.finish()?; cursor.into_inner()`: the finished framed stream. -/
def MemStreamWriter.finish (w : MemStreamWriter) : StreamFile :=
  ⟨w.schema, w.written⟩

/-- `SerializedRecordBatchStream`: the serialized blob holding one framed
stream. -/
structure SerializedRecordBatchStream where
  record_batch_file : StreamFile
deriving DecidableEq

/-- `SerializedRecordBatchStream::write`: one blob per batch, each written
through a fresh `MemStreamWriter` for the schema. -/
def SerializedRecordBatchStream.write (schema : Nat)
    (record_batches : List Batch) : List SerializedRecordBatchStream :=
  record_batches.map (fun batch =>
    ⟨((MemStreamWriter.try_new schema).writeBatch batch).finish⟩)

/-- `SerializedRecordBatchStream::read`: iterate the framed stream; zero
batches or more than one batch is an error, exactly one is returned. -/
def SerializedRecordBatchStream.read (s : SerializedRecordBatchStream) :
    Except String Batch :=
  match s.record_batch_file.batches.head? with
  | none => Except.error "zero batches deserialized"
  | some batch =>
    match s.record_batch_file.batches.tail.head? with
    | some _ => Except.error "more than one batch deserialized"
    | none => Except.ok batch

/-- C5: the codec round-trips: writing a single batch produces exactly one
blob and reading that blob back returns the batch. -/
theorem c5_codec_round_trip (schema : Nat) (b : Batch) :
    ∃ blob, SerializedRecordBatchStream.write schema [b] = [blob] ∧
      blob.read = Except.ok b := by
  refine ⟨⟨⟨schema, [b]⟩⟩, ?_, ?_⟩
  · rfl
  · rfl

/-- C6: `read` succeeds exactly on one-batch streams; it errors on an empty
stream and on a stream with two or more batches. -/
theorem c6_read_single_batch_only (s : SerializedRecordBatchStream) :
    (s.record_batch_file.batches.length = 1 ↔ ∃ b, s.read = Except.ok b) ∧
    (s.record_batch_file.batches = [] →
      s.read = Except.error "zero batches deserialized") ∧
    (2 ≤ s.record_batch_file.batches.length →
      s.read = Except.error "more than one batch deserialized") := by
  obtain ⟨⟨schema, batches⟩⟩ := s
  refine ⟨?_, ?_, ?_⟩
  · constructor
    · intro h
      match batches, h with
      | [b], _ => exact ⟨b, rfl⟩
    · rintro ⟨b, hb⟩
      unfold SerializedRecordBatchStream.read at hb
      match batches, hb with
      | [x], _ => rfl
      | [], hb => simp at hb
      | x :: y :: rest, hb => simp at hb
  · intro h
    subst h
    rfl
  · intro h
    match batches, h with
    | x :: y :: rest, _ => rfl

/-- C6 witness: an empty blob errors with the zero-batch message. -/
theorem c6_read_witness :
    SerializedRecordBatchStream.read ⟨⟨1, []⟩⟩ =
      Except.error "zero batches deserialized" :=
  (c6_read_single_batch_only ⟨⟨1, []⟩⟩).2.1 rfl

/-- `arrow::datatypes::TimeUnit`. -/
inductive TimeUnit where
  | Second
  | Millisecond
  | Microsecond
  | Nanosecond
deriving DecidableEq

/-- The `arrow::datatypes::DataType` constructors consumed by
`batch_to_dataframe` and `arrow_to_column_type`, plus `Float32` as a
representative of the unsupported remainder. -/
inductive DataType where
  | Int8
  | Int16
  | Int32
  | Int64
  | UInt8
  | UInt16
  | UInt32
  | UInt64
  | Float16
  | Float32
  | Float64
  | Int64Decimal (scale : Nat)
  | Timestamp (unit : TimeUnit) (tz : Option String)
  | Binary
  | Utf8
  | LargeUtf8
  | Boolean
deriving DecidableEq

/-- `metastore::ColumnType` as used by `arrow_to_column_type`; the Rust
variant `String` is spelled `StringT`. -/
inductive ColumnType where
  | Bytes
  | StringT
  | Timestamp
  | Float
  | Boolean
  | Int
  | Decimal (scale : Int) (precision : Int)
deriving DecidableEq

/-- `arrow_to_column_type`: the column-header type mapping; the final
catch-all is the `unsupported type` error. -/
def arrow_to_column_type (arrow_type : DataType) : Except String ColumnType :=
  match arrow_type with
  | DataType.Binary => Except.ok ColumnType.Bytes
  | DataType.Utf8 | DataType.LargeUtf8 => Except.ok ColumnType.StringT
  | DataType.Timestamp _ _ => Except.ok ColumnType.Timestamp
  | DataType.Float16 | DataType.Float64 => Except.ok ColumnType.Float
  | DataType.Int64Decimal scale =>
    Except.ok (ColumnType.Decimal (Int.ofNat scale) 18)
  | DataType.Boolean => Except.ok ColumnType.Boolean
  | DataType.Int8 | DataType.Int16 | DataType.Int32 | DataType.Int64
  | DataType.UInt8 | DataType.UInt16 | DataType.UInt32 | DataType.UInt64 =>
    Except.ok ColumnType.Int
  | _ => Except.error "unsupported type"

/-- A native cell value of a typed arrow array: integer-backed arrays carry
an integer, `Float64` arrays an opaque payload, string, boolean and binary
arrays their contents. -/
inductive ArrVal where
  | ival (i : Int)
  | fval (bits : Int)
  | sval (s : String)
  | bval (b : Bool)
  | byval (bs : List Nat)
deriving DecidableEq

/-- A typed arrow array: a data type and one optional cell per slot
(`none` is a null slot, `a.is_null(i)`). -/
structure ArrayM where
  dtype : DataType
  vals : List (Option ArrVal)
deriving DecidableEq

/-- An arrow schema field: name and data type. -/
structure FieldA where
  name : String
  data_type : DataType
deriving DecidableEq

/-- A typed record batch as consumed by `batch_to_dataframe`. -/
structure BatchA where
  schema : List FieldA
  columns : List ArrayM
deriving DecidableEq

/-- `RecordBatch::num_rows` of a typed batch. -/
def BatchA.num_rows (b : BatchA) : Nat :=
  ((b.columns.head?).map (fun a => a.vals.length)).getD 0

/-- `table::TableValue`; the Rust variant `String` is spelled `StringV`,
floats carry their payload opaquely, decimals their raw `i64`. -/
inductive TableValue where
  | Null
  | Int (i : ℤ)
  | Float (bits : ℤ)
  | Decimal (raw : ℤ)
  | Timestamp (ns : ℤ)
  | Bytes (bs : List Nat)
  | StringV (s : String)
  | Boolean (b : Bool)
deriving DecidableEq

/-- `store::Column` of the produced dataframe. -/
structure ColumnM where
  name : String
  column_type : ColumnType
  column_index : Nat
deriving DecidableEq

/-- `store::DataFrame`: column headers and untyped rows. -/
structure DataFrameM where
  cols : List ColumnM
  rows : List (List TableValue)
deriving DecidableEq

/-- The `u64 → i64` reinterpreting cast `a.value(i) as i64` applied to
`UInt64Array` cells. -/
def castU64asI64 (v : Int) : Int :=
  if v < 2 ^ 63 then v else v - 2 ^ 64

/-- One cell of the `match array.data_type()` dispatch of
`batch_to_dataframe`: the supported arms convert their downcast cell
(`convert_array!`), every other data type panics with
`Unsupported data type`; a cell whose native value does not match the arm
models a failing `downcast_ref().unwrap()`. -/
def cellToTableValue (dtype : DataType) (cell : Option ArrVal) :
    Except String TableValue :=
  match cell with
  | none => Except.ok TableValue.Null
  | some v =>
    match dtype, v with
    | DataType.UInt64, ArrVal.ival n =>
      Except.ok (TableValue.Int (castU64asI64 n))
    | DataType.Int64, ArrVal.ival n => Except.ok (TableValue.Int n)
    | DataType.Float64, ArrVal.fval bits =>
      Except.ok (TableValue.Float bits)
    | DataType.Int64Decimal 0, ArrVal.ival n =>
      Except.ok (TableValue.Decimal n)
    | DataType.Int64Decimal 1, ArrVal.ival n =>
      Except.ok (TableValue.Decimal n)
    | DataType.Int64Decimal 2, ArrVal.ival n =>
      Except.ok (TableValue.Decimal n)
    | DataType.Int64Decimal 3, ArrVal.ival n =>
      Except.ok (TableValue.Decimal n)
    | DataType.Int64Decimal 4, ArrVal.ival n =>
      Except.ok (TableValue.Decimal n)
    | DataType.Int64Decimal 5, ArrVal.ival n =>
      Except.ok (TableValue.Decimal n)
    | DataType.Int64Decimal 10, ArrVal.ival n =>
      Except.ok (TableValue.Decimal n)
    | DataType.Timestamp TimeUnit.Microsecond none, ArrVal.ival n =>
      Except.ok (TableValue.Timestamp (n * 1000))
    | DataType.Timestamp TimeUnit.Nanosecond none, ArrVal.ival n =>
      Except.ok (TableValue.Timestamp n)
    | DataType.Binary, ArrVal.byval bs => Except.ok (TableValue.Bytes bs)
    | DataType.Utf8, ArrVal.sval s => Except.ok (TableValue.StringV s)
    | DataType.Boolean, ArrVal.bval b => Except.ok (TableValue.Boolean b)
    | _, _ => Except.error "Unsupported data type"

/-- The `for i in 0..num_rows` cell loop over one column. -/
def convertColumn (a : ArrayM) (n : Nat) : Except String (List TableValue) :=
  (List.range n).mapM (fun i => cellToTableValue a.dtype (a.vals.getD i none))

/-- `rows[i].push(v)` for every row: append one converted column to the
row-major accumulator. -/
def pushColumnVals (rows : List (List TableValue))
    (vals : List TableValue) : List (List TableValue) :=
  List.zipWith (fun r v => r ++ [v]) rows vals

/-- The per-batch column loop of `batch_to_dataframe`: rows start empty and
every column pushes one value per row. -/
def processBatch (b : BatchA) : Except String (List (List TableValue)) :=
  b.columns.foldlM
    (fun rows a => (convertColumn a b.num_rows).map
      (fun vals => pushColumnVals rows vals))
    (List.replicate b.num_rows [])

/-- `Column::new(name, arrow_to_column_type(..)?, index)` over the schema
fields of the first batch. -/
def buildCols (fields : List FieldA) : Except String (List ColumnM) :=
  fields.enum.mapM (fun e =>
    (arrow_to_column_type e.2.data_type).map
      (fun t => ColumnM.mk e.2.name t e.1))

/-- One iteration of the batch loop of `batch_to_dataframe`: build the
column headers from the first non-consumed schema, skip zero-row batches
(`continue`), convert and append the rows otherwise. -/
def batchStep (acc : List ColumnM × List (List TableValue)) (batch : BatchA) :
    Except String (List ColumnM × List (List TableValue)) :=
  match (if acc.1.length = 0 then buildCols batch.schema
         else Except.ok acc.1) with
  | Except.error e => Except.error e
  | Except.ok cols =>
    if batch.num_rows = 0 then Except.ok (cols, acc.2)
    else
      match processBatch batch with
      | Except.error e => Except.error e
      | Except.ok rows => Except.ok (cols, acc.2 ++ rows)

/-- `batch_to_dataframe`. -/
def batch_to_dataframe (batches : List BatchA) : Except String DataFrameM :=
  (batches.foldlM batchStep ([], [])).map
    (fun acc => DataFrameM.mk acc.1 acc.2)

/-- The row value the claim assigns to an integer-typed cell: `Null` for a
null slot, otherwise the integer as `i64` (reinterpreting the cast for
`UInt64`). -/
def intCellValue (a : ArrayM) (cell : Option ArrVal) : TableValue :=
  match cell with
  | none => TableValue.Null
  | some (ArrVal.ival n) =>
    TableValue.Int (if a.dtype = DataType.UInt64 then castU64asI64 n else n)
  | some _ => TableValue.Null

theorem mapM_ok_of_forall {α β : Type} (f : α → Except String β) (g : α → β) :
    ∀ (l : List α), (∀ x ∈ l, f x = Except.ok (g x)) →
      l.mapM f = Except.ok (l.map g) := by
  intro l
  induction l with
  | nil => intro _; rfl
  | cons a l ih =>
    intro h
    rw [List.mapM_cons, h a (List.mem_cons_self a l),
      ih (fun x hx => h x (List.mem_cons_of_mem a hx))]
    rfl

theorem convertColumn_int (a : ArrayM) (n : Nat)
    (hdt : a.dtype = DataType.Int64 ∨ a.dtype = DataType.UInt64)
    (hvals : ∀ c ∈ a.vals, ∀ x, c = some x → ∃ i, x = ArrVal.ival i) :
    convertColumn a n = Except.ok ((List.range n).map
      (fun i => intCellValue a (a.vals.getD i none))) := by
  unfold convertColumn
  apply mapM_ok_of_forall
  intro i _
  cases hc : a.vals.getD i none with
  | none => rfl
  | some x =>
    have hmem : (some x) ∈ a.vals := by
      rw [List.getD_eq_getElem?_getD] at hc
      cases hv : a.vals[i]? with
      | none => rw [hv] at hc; simp at hc
      | some c =>
        rw [hv] at hc
        simp only [Option.getD_some] at hc
        subst hc
        exact List.getElem?_mem hv
    obtain ⟨iv, hx⟩ := hvals _ hmem x rfl
    subst hx
    cases hdt with
    | inl h => simp [cellToTableValue, intCellValue, h]
    | inr h => simp [cellToTableValue, intCellValue, h]

/-- The rows the claim predicts for integer-typed columns. -/
def targetRows (n : Nat) (as : List ArrayM) : List (List TableValue) :=
  (List.range n).map (fun i => as.map (fun a => intCellValue a (a.vals.getD i none)))

theorem zipWith_append_map {α : Type} (l : List α) (g : α → List TableValue)
    (h : α → TableValue) :
    List.zipWith (fun r v => r ++ [v]) (l.map g) (l.map h) =
      l.map (fun x => g x ++ [h x]) := by
  induction l with
  | nil => rfl
  | cons a l ih => simp [ih]

theorem pushColumnVals_target (n : Nat) (done : List ArrayM) (a : ArrayM) :
    pushColumnVals (targetRows n done)
      ((List.range n).map (fun i => intCellValue a (a.vals.getD i none))) =
      targetRows n (done ++ [a]) := by
  unfold pushColumnVals targetRows
  rw [zipWith_append_map]
  apply List.map_congr_left
  intro i _
  simp

theorem processBatch_int (b : BatchA)
    (hdt : ∀ a ∈ b.columns,
      a.dtype = DataType.Int64 ∨ a.dtype = DataType.UInt64)
    (hvals : ∀ a ∈ b.columns, ∀ c ∈ a.vals, ∀ x, c = some x →
      ∃ i, x = ArrVal.ival i) :
    processBatch b = Except.ok (targetRows b.num_rows b.columns) := by
  unfold processBatch
  have h0 : List.replicate b.num_rows ([] : List TableValue) =
      targetRows b.num_rows [] := by
    unfold targetRows
    simp only [List.map_nil]
    rw [List.map_const', List.length_range]
  rw [h0]
  suffices h : ∀ (pending done : List ArrayM),
      (∀ a ∈ pending, a.dtype = DataType.Int64 ∨ a.dtype = DataType.UInt64) →
      (∀ a ∈ pending, ∀ c ∈ a.vals, ∀ x, c = some x →
        ∃ i, x = ArrVal.ival i) →
      pending.foldlM
        (fun rows a => (convertColumn a b.num_rows).map
          (fun vals => pushColumnVals rows vals))
        (targetRows b.num_rows done) =
        Except.ok (targetRows b.num_rows (done ++ pending)) by
    have := h b.columns [] hdt hvals
    rw [List.nil_append] at this
    exact this
  intro pending
  induction pending with
  | nil =>
    intro done _ _
    rw [List.append_nil]
    rfl
  | cons a rest ih =>
    intro done h1 h2
    rw [show (a :: rest).foldlM
        (fun rows x => (convertColumn x b.num_rows).map
          (fun vals => pushColumnVals rows vals))
        (targetRows b.num_rows done) =
        ((convertColumn a b.num_rows).map
          (fun vals => pushColumnVals (targetRows b.num_rows done) vals)).bind
          (fun rows2 => rest.foldlM
            (fun rows x => (convertColumn x b.num_rows).map
              (fun vals => pushColumnVals rows vals)) rows2) from rfl]
    rw [convertColumn_int a b.num_rows (h1 a (List.mem_cons_self a rest))
      (h2 a (List.mem_cons_self a rest))]
    rw [show ((Except.ok ((List.range b.num_rows).map
        (fun i => intCellValue a (a.vals.getD i none))) :
          Except String (List TableValue)).map
        (fun vals => pushColumnVals (targetRows b.num_rows done) vals)).bind
        (fun rows2 => rest.foldlM
          (fun rows x => (convertColumn x b.num_rows).map
            (fun vals => pushColumnVals rows vals)) rows2) =
        rest.foldlM
          (fun rows x => (convertColumn x b.num_rows).map
            (fun vals => pushColumnVals rows vals))
          (pushColumnVals (targetRows b.num_rows done)
            ((List.range b.num_rows).map
              (fun i => intCellValue a (a.vals.getD i none)))) from rfl]
    rw [pushColumnVals_target]
    rw [ih (done ++ [a]) (fun x hx => h1 x (List.mem_cons_of_mem a hx))
      (fun x hx => h2 x (List.mem_cons_of_mem a hx))]
    rw [List.append_assoc]
    rfl

/-- A one-row batch with a single `Int32` column. -/
def int32Batch : BatchA :=
  ⟨[⟨"c", DataType.Int32⟩], [⟨DataType.Int32, [some (ArrVal.ival 1)]⟩]⟩

/-- C7 counterexample: an `Int32` column is classified as an `Int` column
by `arrow_to_column_type`, yet `batch_to_dataframe` fails on a one-row
`Int32` batch with the `Unsupported data type` panic, refuting the claim
that every integer width of i8..i64/u8..u64 converts without failing. -/
theorem c7_int32_panics :
    batch_to_dataframe [int32Batch] = Except.error "Unsupported data type" ∧
    arrow_to_column_type DataType.Int32 = Except.ok ColumnType.Int := by
  constructor
  · rfl
  · rfl

/-- C7 (amended): only the widths `Int64` and `UInt64` are converted by
`batch_to_dataframe`: on a batch whose columns carry those types with
integer-valued cells, conversion succeeds, each non-null cell becomes
`TableValue.Int` holding the value as `i64` (with the reinterpreting cast
for `UInt64`), each null cell becomes `TableValue.Null`, and the column
headers are `Int` columns; the remaining widths fail (see the
counterexample). -/
theorem c7_int64_uint64_convert (b : BatchA)
    (hschema : ∀ f ∈ b.schema,
      arrow_to_column_type f.data_type = Except.ok ColumnType.Int)
    (hdt : ∀ a ∈ b.columns,
      a.dtype = DataType.Int64 ∨ a.dtype = DataType.UInt64)
    (hvals : ∀ a ∈ b.columns, ∀ c ∈ a.vals, ∀ x, c = some x →
      ∃ i, x = ArrVal.ival i) :
    batch_to_dataframe [b] = Except.ok
      ⟨b.schema.enum.map (fun e => ColumnM.mk e.2.name ColumnType.Int e.1),
       targetRows b.num_rows b.columns⟩ := by
  have hcols : buildCols b.schema = Except.ok
      (b.schema.enum.map (fun e => ColumnM.mk e.2.name ColumnType.Int e.1)) := by
    unfold buildCols
    apply mapM_ok_of_forall
    intro e he
    have hf : e.2 ∈ b.schema := by
      have hz : e ∈ (List.range b.schema.length).zip b.schema := by
        rw [← List.enum_eq_zip_range]
        exact he
      exact (List.of_mem_zip hz).2
    rw [hschema e.2 hf]
    rfl
  unfold batch_to_dataframe
  rw [show ([b].foldlM batchStep (([], []) :
      List ColumnM × List (List TableValue))) =
      (batchStep ([], []) b).bind
        (fun acc => ([] : List BatchA).foldlM batchStep acc) from rfl]
  unfold batchStep
  simp only [List.length_nil, eq_self_iff_true, if_true, hcols]
  by_cases hn : b.num_rows = 0
  · rw [if_pos hn]
    have ht : targetRows b.num_rows b.columns = [] := by
      rw [hn]
      rfl
    rw [ht]
    rfl
  · rw [if_neg hn, processBatch_int b hdt hvals]
    rfl

/-- A two-row batch with an `Int64` and a `UInt64` column, with one null
and one `u64` value above `2^63`. -/
def intBatchEx : BatchA :=
  ⟨[⟨"i", DataType.Int64⟩, ⟨"u", DataType.UInt64⟩],
   [⟨DataType.Int64, [some (ArrVal.ival 5), none]⟩,
    ⟨DataType.UInt64, [some (ArrVal.ival (2 ^ 63)), some (ArrVal.ival 7)]⟩]⟩

/-- C7 witness: evaluating the amended statement on the concrete batch;
the `u64` value `2^63` reinterprets as the negative `i64` `-2^63`. -/
theorem c7_int64_uint64_witness :
    batch_to_dataframe [intBatchEx] = Except.ok
      ⟨[⟨"i", ColumnType.Int, 0⟩, ⟨"u", ColumnType.Int, 1⟩],
       [[TableValue.Int 5, TableValue.Int (-(2 ^ 63))],
        [TableValue.Null, TableValue.Int 7]]⟩ := by
  have hs : ∀ f ∈ intBatchEx.schema,
      arrow_to_column_type f.data_type = Except.ok ColumnType.Int := by
    intro f hf
    simp only [intBatchEx, List.mem_cons, List.not_mem_nil, or_false] at hf
    rcases hf with rfl | rfl
    · rfl
    · rfl
  have hd : ∀ a ∈ intBatchEx.columns,
      a.dtype = DataType.Int64 ∨ a.dtype = DataType.UInt64 := by
    intro a ha
    simp only [intBatchEx, List.mem_cons, List.not_mem_nil, or_false] at ha
    rcases ha with rfl | rfl
    · exact Or.inl rfl
    · exact Or.inr rfl
  have hv : ∀ a ∈ intBatchEx.columns, ∀ c ∈ a.vals, ∀ x, c = some x →
      ∃ i, x = ArrVal.ival i := by
    intro a ha c hc x hx
    subst hx
    simp only [intBatchEx, List.mem_cons, List.not_mem_nil, or_false] at ha
    rcases ha with rfl | rfl
    · simp only [List.mem_cons, List.not_mem_nil, or_false] at hc
      rcases hc with h2 | h2
      · exact ⟨5, Option.some.inj h2⟩
      · exact absurd h2 (by simp)
    · simp only [List.mem_cons, List.not_mem_nil, or_false] at hc
      rcases hc with h2 | h2
      · exact ⟨2 ^ 63, Option.some.inj h2⟩
      · exact ⟨7, Option.some.inj h2⟩
  have h := c7_int64_uint64_convert intBatchEx hs hd hv
  rw [h]
  exact congrArg Except.ok (by decide)

/-- `MySqlDialectWithBackTicks::is_delimited_identifier_start`: double quote
(34) or backtick (96). Characters are modelled by their code points. -/
def is_delimited_identifier_start (ch : Nat) : Bool :=
  ch == 34 || ch == 96

/-- `MySqlDialectWithBackTicks::is_identifier_start`: ASCII lowercase
(97..122), ASCII uppercase (65..90), underscore (95), dollar (36), or the
range U+0080 (128) to U+FFFF (65535) inclusive. -/
def is_identifier_start (ch : Nat) : Bool :=
  (97 ≤ ch && ch ≤ 122) || (65 ≤ ch && ch ≤ 90) || ch == 95 || ch == 36 ||
    (128 ≤ ch && ch ≤ 65535)

/-- `MySqlDialectWithBackTicks::is_identifier_part`: a start character or an
ASCII digit (48..57). -/
def is_identifier_part (ch : Nat) : Bool :=
  is_identifier_start ch || (48 ≤ ch && ch ≤ 57)

/-- C8 counterexample: the code point U+10000 (65536) is at least U+0080 yet
is rejected by `is_identifier_start`, refuting the claim that every code
point at or above U+0080 starts an identifier. -/
theorem c8_high_code_point_rejected :
    is_identifier_start 65536 = false ∧ 128 ≤ 65536 := by
  decide

/-- C8 (amended): the dialect accepts as identifier start characters
exactly the ASCII letters, underscore, dollar, and the code points from
U+0080 up to and including U+FFFF (code points above U+FFFF are rejected);
continuation characters additionally allow the ASCII digits. -/
theorem c8_dialect_characterization (ch : Nat) :
    (is_identifier_start ch = true ↔
      ((97 ≤ ch ∧ ch ≤ 122) ∨ (65 ≤ ch ∧ ch ≤ 90) ∨ ch = 95 ∨ ch = 36 ∨
        (128 ≤ ch ∧ ch ≤ 65535))) ∧
    (is_identifier_part ch = true ↔
      (is_identifier_start ch = true ∨ (48 ≤ ch ∧ ch ≤ 57))) := by
  constructor
  · unfold is_identifier_start
    simp [Bool.or_eq_true, Bool.and_eq_true, decide_eq_true_eq, beq_iff_eq,
      or_assoc]
  · unfold is_identifier_part
    simp [Bool.or_eq_true, Bool.and_eq_true, decide_eq_true_eq]

/-- C5 witness: the round trip evaluated on a concrete schema and batch. -/
theorem c5_codec_round_trip_witness :
    ∃ blob, SerializedRecordBatchStream.write 1 [batch3] = [blob] ∧
      blob.read = Except.ok batch3 :=
  c5_codec_round_trip 1 batch3

/-- C8 witness: the characterization evaluated at the code point 200. -/
theorem c8_dialect_witness :
    (is_identifier_start 200 = true ↔
      ((97 ≤ 200 ∧ 200 ≤ 122) ∨ (65 ≤ 200 ∧ 200 ≤ 90) ∨ 200 = 95 ∨
        200 = 36 ∨ (128 ≤ 200 ∧ 200 ≤ 65535))) ∧
    (is_identifier_part 200 = true ↔
      (is_identifier_start 200 = true ∨ (48 ≤ 200 ∧ 200 ≤ 57))) :=
  c8_dialect_characterization 200
